import Mathlib

/-!
Verification of the charts_AEP dashboard core against its specification.

The Python sources embedded here are:
* `utils/data_processing.py` — `load_and_process_data`: JSON upload →
  flattened records → pandas DataFrame with a parsed UTC timestamp column.
* `Home.py` / `streamlit_app.py` — the upload handler mutating session state.
* `pages/Dashboard.py` — the global date/asset filter producing each chart's
  row slice (`chart_df`).
* `utils/charting.py` — the four render functions and the chart
  configuration dialog.

Modelling conventions:
* A pandas cell value is `Val`; a missing cell (key absent from the record,
  NaN in pandas) is `Option.none` at lookup time, and an explicit JSON null
  is `Val.vnull`.
* Timestamps are UTC instants counted in microseconds since the epoch
  (`Int`).  `pd.to_datetime(x, errors := coerce, utc := True)` is modelled by
  `parseTs`: a raw field value that pandas successfully converts to an
  instant is represented as `Val.vtime t` (`t` = its UTC microsecond value);
  every other raw value (null, unparseable string) coerces to NaT, i.e.
  `none`.
* Rational numbers stand for the float parameter values; NaN cells are
  `none` after `numCell`, matching the skip-NA behaviour of the pandas
  aggregations used by the code.
* A DataFrame (`DF`) carries its column list, the sublist of columns whose
  dtype is numeric (dtypes are fixed at construction and preserved by row
  slicing, exactly as in pandas), and its rows.
-/

/-- Scalar cell values of the tabular model. -/
inductive Val where
  | vnull : Val
  | vnum : Rat → Val
  | vstr : String → Val
  | vtime : Int → Val
deriving DecidableEq

/-- A flat record: an insertion-ordered Python dict from column name to value. -/
abbrev Rec := List (String × Val)

/-- Column name of the asset identifier. -/
def pldCol : String := "pld"

/-- Column name of the asset type. -/
def assetCol : String := "asset_type"

/-- Column name of the timestamp. -/
def tsCol : String := "timestamp"

/-- Python dict assignment `d[k] = v`: replaces the value of the (unique)
existing binding in place when the key exists, otherwise appends the binding
at the end (insertion order preserved). -/
def dictSet : Rec → String → Val → Rec
  | [], k, v => [(k, v)]
  | p :: t, k, v => if p.1 == k then (k, v) :: t else p :: dictSet t k v

/-- Dict lookup: the value of the first binding of `k`, `none` when absent. -/
def lookupVal (r : Rec) (k : String) : Option Val := List.lookup k r

/-- One entry of the uploaded JSON sequence.  `entry.get` on a missing key
yields Python `None`, collapsed here to `Val.vnull`; `parameters` is the
nested object when present and a dict (a missing or non-dict `parameters`
is the empty list, over which `dict.update` is the identity). -/
structure Entry where
  pld : Val
  asset_type : Val
  timestamp : Val
  parameters : List (String × Val)
deriving DecidableEq

/-- Flattening of one entry (`data_processing.py` lines 16-23): build the
base dict of the three reserved fields, then `flat_record.update(parameters)`
— each parameter binding overwrites an existing key in place or is appended. -/
def flatten (e : Entry) : Rec :=
  e.parameters.foldl (fun d p => dictSet d p.1 p.2)
    [(pldCol, e.pld), (assetCol, e.asset_type), (tsCol, e.timestamp)]

/-- Model of `pd.to_datetime` with `errors` coerce and `utc` set: a raw value
denoting a valid instant (constructor `vtime`) becomes that UTC instant;
null and unparseable values coerce to NaT (`none`). -/
def parseTs : Val → Option Int
  | Val.vtime t => some t
  | _ => none

/-- Per-row effect of `to_datetime` plus `dropna(subset := [timestamp])`:
rows whose timestamp cell coerces to NaT are dropped; surviving rows carry
the parsed instant in the timestamp cell. -/
def processRow (r : Rec) : Option Rec :=
  match (lookupVal r tsCol).bind parseTs with
  | some t => some (dictSet r tsCol (Val.vtime t))
  | none => none

/-- Columns contributed by one record, appended to `cols` in first-seen
order, as `pd.DataFrame(records)` does. -/
def addCols (cols : List String) (r : Rec) : List String :=
  r.foldl (fun cs p => if cs.contains p.1 then cs else cs ++ [p.1]) cols

/-- Column list of `pd.DataFrame(records)`: union of the record key sets in
order of first appearance. -/
def dfColumns (records : List Rec) : List String :=
  records.foldl addCols []

/-- Whether a cell holds a number. -/
def isNumCell (c : Option Val) : Bool :=
  match c with
  | some (Val.vnum _) => true
  | _ => false

/-- Whether a cell is NA to pandas: the key is absent (NaN) or the value is
an explicit null (converted to NaN in a numeric column). -/
def isNACell (c : Option Val) : Bool :=
  match c with
  | none => true
  | some Val.vnull => true
  | _ => false

/-- Dtype inference of `pd.DataFrame(records)` for column `c`: the column is
numeric when at least one record holds a number there and every record holds
a number or NA there (pandas then infers int64/float64); any other value
anywhere makes the dtype object, and an all-NA column is object as well. -/
def inferNumeric (records : List Rec) (c : String) : Bool :=
  records.any (fun r => isNumCell (lookupVal r c)) &&
    records.all (fun r => isNumCell (lookupVal r c) || isNACell (lookupVal r c))

/-- A DataFrame: columns, the sublist of columns of numeric dtype (fixed at
construction, preserved by row slicing), and rows. -/
structure DF where
  cols : List String
  numCols : List String
  rows : List Rec
deriving DecidableEq

/-- The empty DataFrame `pd.DataFrame()`. -/
def emptyDF : DF := ⟨[], [], []⟩

/-- Embedding of `load_and_process_data` (`data_processing.py` lines 12-32)
on an upload that parsed as JSON: flatten every entry, fail to the empty
frame when the resulting shape has no timestamp column, otherwise parse the
timestamp column (`errors` coerce, UTC) and drop the rows that coerced to
NaT.  Dtypes are inferred from the constructed (pre-drop) records; the
timestamp column is retyped datetime64 by `to_datetime`, hence never
numeric. -/
def load_and_process_data (data : List Entry) : DF :=
  let records := data.map flatten
  let cols := dfColumns records
  if cols.contains tsCol then
    ⟨cols,
     (cols.filter (fun c => inferNumeric records c)).filter (fun c => c != tsCol),
     records.filterMap processRow⟩
  else emptyDF

/-- An upload attempt: either the file parsed as a JSON sequence of objects,
or `json.load` / iteration raised (malformed JSON, I/O failure), caught by
the `except` branch which returns the empty frame. -/
inductive Upload where
  | ok (data : List Entry)
  | malformed
deriving DecidableEq

/-- Result of `load_and_process_data` over a whole upload attempt. -/
def load_upload : Upload → DF
  | Upload.ok data => load_and_process_data data
  | Upload.malformed => emptyDF

/-- Session state relevant to uploads: the dataset and the chart list. -/
structure Session where
  data : DF
  charts : List Rec
deriving DecidableEq

/-- Embedding of the upload handler (`Home.py` lines 35-41, identically
`streamlit_app.py` lines 170-177): the session dataset is assigned the
result of processing unconditionally; the chart list is reset only when the
new dataset is non-empty. -/
def uploadStep (s : Session) (u : Upload) : Session :=
  let newData := load_upload u
  if newData.rows.isEmpty then { data := newData, charts := s.charts }
  else { data := newData, charts := [] }

/-- Timestamp cell of a processed row as an instant; NaT/absent is `none`. -/
def tsOf (r : Rec) : Option Int :=
  match lookupVal r tsCol with
  | some (Val.vtime t) => some t
  | _ => none

/-- Timestamp key used for sorting.  Every row of a processed frame carries a
parsed instant (`dropna` guarantees it), so the default is never reached on
the frames the dashboard handles. -/
def tsKey (r : Rec) : Int :=
  (tsOf r).getD 0

/-- One day in microseconds. -/
def dayUsec : Int := 86400000000

/-- Embedding of `Dashboard.py` line 38: `pd.Timestamp(from_date, tz)` —
midnight starting the chosen from-date.  Dates are day numbers since the
epoch; the frame timezone is UTC after normalization. -/
def fromDatetime (d : Int) : Int := d * dayUsec

/-- Embedding of `Dashboard.py` line 40: `pd.Timestamp(to_date, tz) +
pd.Timedelta(days := 1) - pd.Timedelta(seconds := 1)` — the chosen to-date
at 23:59:59.000000. -/
def toDatetime (d : Int) : Int := d * dayUsec + dayUsec - 1000000

/-- Embedding of the per-chart filter (`Dashboard.py` lines 71-75): rows of
the chart's asset type whose timestamp lies between `from_datetime` and
`to_datetime` inclusive.  A NaT timestamp compares false and is excluded,
as in pandas.  Row slicing preserves columns and dtypes. -/
def chart_df (df : DF) (asset : String) (fromDate toDate : Int) : DF :=
  { df with rows := df.rows.filter (fun r =>
      (lookupVal r assetCol == some (Val.vstr asset)) &&
      (match tsOf r with
       | some t => decide (fromDatetime fromDate ≤ t) && decide (t ≤ toDatetime toDate)
       | none => false)) }

/-- Insertion of a row into a timestamp-sorted list, placing the new row
before the first row with a strictly larger-or-equal key.  Used by
`sortByTs` below to build one concrete timestamp-sorted permutation. -/
def insertRow (a : Rec) : List Rec → List Rec
  | [] => [a]
  | b :: l => if tsKey a ≤ tsKey b then a :: b :: l else b :: insertRow a l

/-- Canonical timestamp sort.  `df.sort_values(timestamp)` (default `kind`
quicksort) returns SOME permutation of the rows that is sorted by the
parsed timestamp; its order among equal timestamps is
implementation-defined — pandas documents only mergesort/stable as stable —
so theorems about the renderers quantify over every timestamp-sorted
permutation of the input instead of relying on this function's particular
tie order.  `sortByTs` supplies one admissible outcome, needed for
executable evaluation; on frames whose timestamps are pairwise distinct
(such as every concrete frame evaluated below) every admissible outcome
coincides with it. -/
def sortByTs : List Rec → List Rec
  | [] => []
  | a :: l => insertRow a (sortByTs l)

/-- The pld cell as a group key.  `groupby(pld)` drops NA keys; the
ingestion format makes `pld` a plain string identifier, so keys are the
string-valued cells. -/
def pldStr (r : Rec) : Option String :=
  match lookupVal r pldCol with
  | some (Val.vstr s) => some s
  | _ => none

/-- Sorted list of strings (pandas `groupby` returns its groups in
ascending key order). -/
def sortStr (l : List String) : List String :=
  List.insertionSort (fun a b => a ≤ b) l

/-- Group keys of `df.groupby(pld)`: the distinct non-NA pld values, in
ascending order. -/
def pldKeys (rows : List Rec) : List String :=
  sortStr (rows.filterMap pldStr).dedup

/-- Numeric value of a parameter cell; NaN, null, absent and non-numeric
cells are `none` (skipped by the pandas aggregations used below). -/
def numCell (r : Rec) (param : String) : Option Rat :=
  match lookupVal r param with
  | some (Val.vnum q) => some q
  | _ => none

/-- The two aggregation choices offered by the configuration dialog. -/
inductive Agg where
  | sum : Agg
  | mean : Agg
deriving DecidableEq

/-- Embedding of the Individual branch of `render_line_chart`
(`charting.py` lines 8-16): group the slice by pld, sort each group by
timestamp, and emit one named series of (timestamp, parameter value) points
per group.  Each group's sort is `sort_values(timestamp)`; `sortByTs` here
fixes one admissible order among equal timestamps, which the code itself
does not pin down (see `sortByTs`). -/
def render_line_individual (rows : List Rec) (param : String) :
    List (String × List (Int × Option Rat)) :=
  (pldKeys rows).map (fun k =>
    (k, (sortByTs (rows.filter (fun r => pldStr r == some k))).map
      (fun r => (tsKey r, numCell r param))))

/-- Floor of an instant to its UTC calendar day, the `freq` D bin of
`pd.Grouper`. -/
def dayOf (t : Int) : Int := Int.fdiv t dayUsec

/-- Smallest element of a list of instants. -/
def minList : List Int → Option Int
  | [] => none
  | x :: xs => some (xs.foldl min x)

/-- Largest element of a list of instants. -/
def maxList : List Int → Option Int
  | [] => none
  | x :: xs => some (xs.foldl max x)

/-- Aggregated value of one day bucket: collect the numeric parameter values
of the rows falling on that day and reduce them.  `agg(sum)` of an empty or
all-NaN bucket is 0; `agg(mean)` of such a bucket is NaN (`none`), exactly
the pandas skip-NA semantics. -/
def aggDay (rows : List Rec) (param : String) (agg : Agg) (d : Int) : Option Rat :=
  let xs := (rows.filter (fun r => dayOf (tsKey r) == d)).filterMap
    (fun r => numCell r param)
  match agg with
  | Agg.sum => some (xs.foldl (· + ·) 0)
  | Agg.mean => if xs.isEmpty then none else some (xs.foldl (· + ·) 0 / (xs.length : Rat))

/-- Consecutive UTC days from `a` to `b` inclusive, the bins generated by
`pd.Grouper(key := timestamp, freq := D)` — the grouper resamples, so every
day between the first and the last observation gets a bin, including days
with no rows. -/
def dayRange (a b : Int) : List Int :=
  (List.range (b + 1 - a).toNat).map (fun (i : Nat) => a + (i : Int))

/-- Embedding of the Grouped branch of `render_line_chart` (`charting.py`
lines 17-24): bucket the slice into calendar-day bins spanning the data and
aggregate the parameter within each bin. -/
def render_line_grouped (rows : List Rec) (param : String) (agg : Agg) :
    List (Int × Option Rat) :=
  let days := rows.map (fun r => dayOf (tsKey r))
  match minList days, maxList days with
  | some a, some b => (dayRange a b).map (fun d => (d, aggDay rows param agg d))
  | _, _ => []

/-- Result of the BigNumber widget: a number, a NaN display (mean over an
all-NA column), or the explicit not-available state. -/
inductive BigNum where
  | val : Rat → BigNum
  | nanDisplay : BigNum
  | na : BigNum
deriving DecidableEq

/-- `GroupBy.last` on one column over one group: the last non-NA value in
frame order, NA when the group is all-NA. -/
def lastSome (l : List (Option Rat)) : Option Rat :=
  (l.filterMap id).getLast?

/-- Reduction of the one-value-per-pld column by `sum` or `mean` with pandas
skip-NA semantics: `sum` of nothing is 0, `mean` of nothing is NaN. -/
def aggReduce (agg : Agg) (vs : List (Option Rat)) : BigNum :=
  let xs := vs.filterMap id
  match agg with
  | Agg.sum => BigNum.val (xs.foldl (· + ·) 0)
  | Agg.mean =>
      if xs.isEmpty then BigNum.nanDisplay
      else BigNum.val (xs.foldl (· + ·) 0 / (xs.length : Rat))

/-- Embedding of `render_big_number` (`charting.py` lines 39-47), factored
over the sorted frame: when the slice has rows and the parameter column
exists, the code sorts the whole slice by timestamp, groups by pld, takes
the last non-NA parameter value of each group and reduces per the
configured aggregation; otherwise it shows the explicit N/A metric.
`sorted` stands for the frame `df.sort_values(timestamp)` returned — some
timestamp-sorted permutation of the slice's rows, with
implementation-defined order among equal timestamps — so theorems about
this function quantify over every admissible `sorted`. -/
def render_big_number (cols : List String) (sorted : List Rec)
    (param : String) (agg : Agg) : BigNum :=
  if !sorted.isEmpty && cols.contains param then
    aggReduce agg ((pldKeys sorted).map (fun k =>
      lastSome ((sorted.filter (fun r => pldStr r == some k)).map
        (fun r => numCell r param))))
  else BigNum.na

/-- Embedding of the Gauge branch of `configure_chart_dialog`
(`charting.py` lines 99-108): the chart config dict is built field by field
from the dialog selections — no comparison of the two bounds happens
anywhere — and the Add button appends it to the session chart list. -/
def configure_gauge_dialog (charts : List Rec) (asset param : String)
    (minv maxv : Rat) : List Rec :=
  let cfg :=
    dictSet (dictSet (dictSet (dictSet (dictSet [] assetCol (Val.vstr asset))
      ("type") (Val.vstr ("Gauge")))
      ("parameter") (Val.vstr param))
      ("min_val") (Val.vnum minv))
      ("max_val") (Val.vnum maxv)
  charts ++ [cfg]

/-- Embedding of `configure_chart_dialog` lines 82-84: the dialog slices the
full frame to the chosen asset type and offers `select_dtypes(number)` as
the numeric parameter domain.  Row slicing keeps the parent frame's columns
and dtypes, so the domain is the numeric-dtype columns of the whole frame. -/
def select_asset_rows (df : DF) (t : String) : DF :=
  { df with rows := df.rows.filter (fun r => lookupVal r assetCol == some (Val.vstr t)) }

/-- Numeric parameter domain offered by the dialog for one asset type. -/
def modal_numeric_cols (df : DF) (t : String) : List String :=
  (select_asset_rows df t).numCols

/-- Full column domain offered by the dialog (Table multi-select). -/
def modal_all_cols (df : DF) (t : String) : List String :=
  (select_asset_rows df t).cols


/-!  Helper lemmas about dict assignment, column inference and counting. -/

/-- Whether a record carries a binding for `k`. -/
def hasKey (d : Rec) (k : String) : Bool :=
  d.any (fun p => p.1 == k)

theorem lookupVal_cons (p : String × Val) (t : Rec) (k : String) :
    lookupVal (p :: t) k = if k = p.1 then some p.2 else lookupVal t k := by
  simp only [lookupVal, List.lookup]
  cases h : k == p.1 <;> simp_all

theorem lookupVal_nil (k : String) : lookupVal [] k = none := rfl

theorem dictSet_lookup (d : Rec) (k k2 : String) (v : Val) :
    lookupVal (dictSet d k v) k2 = if k2 = k then some v else lookupVal d k2 := by
  induction d with
  | nil =>
      simp only [dictSet, lookupVal, List.lookup]
      cases hb : k2 == k <;> simp_all
  | cons p t ih =>
      by_cases hp : p.1 = k
      · simp only [dictSet, beq_iff_eq, hp, if_true]
        rw [lookupVal_cons, lookupVal_cons]
        by_cases h : k2 = k <;> simp [h, hp]
      · simp only [dictSet, beq_iff_eq, hp, if_false]
        rw [lookupVal_cons, lookupVal_cons]
        by_cases h2 : k2 = p.1
        · subst h2
          simp [hp]
        · simp [h2, ih]

theorem hasKey_dictSet (d : Rec) (k k2 : String) (v : Val) (h : hasKey d k2 = true) :
    hasKey (dictSet d k v) k2 = true := by
  induction d with
  | nil => simp [hasKey] at h
  | cons p t ih =>
      simp only [hasKey, List.any_cons, Bool.or_eq_true, beq_iff_eq] at h
      by_cases hp : p.1 = k
      · simp only [dictSet, beq_iff_eq, hp, if_true, hasKey, List.any_cons,
          Bool.or_eq_true, beq_iff_eq]
        rcases h with h | h
        · left; rw [← hp]; exact h
        · right; simpa [hasKey] using h
      · simp only [dictSet, beq_iff_eq, hp, if_false, hasKey, List.any_cons,
          Bool.or_eq_true, beq_iff_eq]
        rcases h with h | h
        · left; exact h
        · right
          have := ih (by simpa [hasKey] using h)
          simpa [hasKey] using this

theorem hasKey_foldl_dictSet (ps : List (String × Val)) (d : Rec) (k : String)
    (h : hasKey d k = true) :
    hasKey (ps.foldl (fun d2 p => dictSet d2 p.1 p.2) d) k = true := by
  induction ps generalizing d with
  | nil => exact h
  | cons p t ih => exact ih _ (hasKey_dictSet d p.1 k p.2 h)

theorem flatten_hasKey_ts (e : Entry) : hasKey (flatten e) tsCol = true := by
  apply hasKey_foldl_dictSet
  simp [hasKey]

theorem flatten_hasKey_pld (e : Entry) : hasKey (flatten e) pldCol = true := by
  apply hasKey_foldl_dictSet
  simp [hasKey]

theorem flatten_hasKey_asset (e : Entry) : hasKey (flatten e) assetCol = true := by
  apply hasKey_foldl_dictSet
  simp [hasKey]

theorem addCols_mono (r : Rec) (cols : List String) (k : String) (h : k ∈ cols) :
    k ∈ addCols cols r := by
  induction r generalizing cols with
  | nil => exact h
  | cons p t ih =>
      have step : addCols cols (p :: t) =
          addCols (if cols.contains p.1 then cols else cols ++ [p.1]) t := rfl
      rw [step]
      apply ih
      by_cases hc : p.1 ∈ cols <;> simp [hc, h]

theorem addCols_of_hasKey (r : Rec) (cols : List String) (k : String)
    (h : hasKey r k = true) : k ∈ addCols cols r := by
  induction r generalizing cols with
  | nil => simp [hasKey] at h
  | cons p t ih =>
      have step : addCols cols (p :: t) =
          addCols (if cols.contains p.1 then cols else cols ++ [p.1]) t := rfl
      rw [step]
      simp only [hasKey, List.any_cons, Bool.or_eq_true, beq_iff_eq] at h
      rcases h with h | h
      · subst h
        apply addCols_mono
        by_cases hc : p.1 ∈ cols <;> simp [hc]
      · exact ih _ (by simpa [hasKey] using h)

theorem foldl_addCols_mono (records : List Rec) (cols : List String) (k : String)
    (h : k ∈ cols) : k ∈ records.foldl addCols cols := by
  induction records generalizing cols with
  | nil => exact h
  | cons r t ih => exact ih _ (addCols_mono r cols k h)

theorem dfColumns_of_hasKey_head (r : Rec) (rest : List Rec) (k : String)
    (h : hasKey r k = true) : k ∈ dfColumns (r :: rest) := by
  simp only [dfColumns, List.foldl_cons]
  exact foldl_addCols_mono rest _ k (addCols_of_hasKey r [] k h)

theorem length_filterMap_eq_filter {α β : Type} (f : α → Option β) (l : List α) :
    (l.filterMap f).length = (l.filter (fun x => (f x).isSome)).length := by
  induction l with
  | nil => rfl
  | cons a t ih =>
      cases h : f a with
      | none => simp [List.filterMap_cons, List.filter_cons, h, ih]
      | some b => simp [List.filterMap_cons, List.filter_cons, h, ih]

theorem length_filter_add_not {α : Type} (p : α → Bool) (l : List α) :
    (l.filter p).length + (l.filter (fun x => !(p x))).length = l.length := by
  induction l with
  | nil => rfl
  | cons a t ih =>
      cases h : p a <;> simp [List.filter_cons, h] <;> omega

/-- Whether an entry survives ingestion: the timestamp cell of its flattened
record (after any parameter override of the reserved field) parses to an
instant. -/
def retainedEntry (e : Entry) : Bool :=
  ((lookupVal (flatten e) tsCol).bind parseTs).isSome

theorem load_rows_of_contains (data : List Entry)
    (h : (dfColumns (data.map flatten)).contains tsCol = true) :
    (load_and_process_data data).rows = (data.map flatten).filterMap processRow := by
  have hm : tsCol ∈ dfColumns (data.map flatten) := by simpa using h
  simp [load_and_process_data, hm]

theorem processRow_isSome (r : Rec) :
    (processRow r).isSome = ((lookupVal r tsCol).bind parseTs).isSome := by
  simp only [processRow]
  cases (lookupVal r tsCol).bind parseTs <;> rfl

theorem dfColumns_contains_ts (e : Entry) (rest : List Entry) :
    (dfColumns ((e :: rest).map flatten)).contains tsCol = true := by
  have hmem : tsCol ∈ dfColumns (flatten e :: rest.map flatten) :=
    dfColumns_of_hasKey_head (flatten e) _ tsCol (flatten_hasKey_ts e)
  simpa using hmem

/-- C2.  Every upload that normalizes successfully (the flattened shape has a
timestamp column, i.e. the entry list is non-empty) yields a dataset that
retains exactly the input records whose timestamp parses, each retained
record carrying the parsed UTC instant (never null) in its timestamp cell,
and the retained count equals the input length minus the number of entries
whose timestamp is missing or unparseable. -/
theorem C2_normalized_retention (data : List Entry) (h : data ≠ []) :
    (∀ r ∈ (load_and_process_data data).rows, ∃ t : Int,
        lookupVal r tsCol = some (Val.vtime t)) ∧
    (load_and_process_data data).rows =
      data.filterMap (fun e => processRow (flatten e)) ∧
    (load_and_process_data data).rows.length =
      data.length - (data.filter (fun e => !(retainedEntry e))).length := by
  obtain ⟨e, rest, rfl⟩ := List.exists_cons_of_ne_nil h
  have hrows := load_rows_of_contains (e :: rest) (dfColumns_contains_ts e rest)
  have hrows2 : (load_and_process_data (e :: rest)).rows =
      (e :: rest).filterMap (fun x => processRow (flatten x)) := by
    rw [hrows, List.filterMap_map]
    rfl
  refine ⟨?_, hrows2, ?_⟩
  · intro r hr
    rw [hrows] at hr
    obtain ⟨r0, _, hpr⟩ := List.mem_filterMap.mp hr
    simp only [processRow] at hpr
    cases hpt : (lookupVal r0 tsCol).bind parseTs with
    | none => rw [hpt] at hpr; exact absurd hpr (by simp)
    | some t =>
        rw [hpt] at hpr
        simp only [Option.some.injEq] at hpr
        refine ⟨t, ?_⟩
        rw [← hpr, dictSet_lookup]
        simp
  · rw [hrows2, length_filterMap_eq_filter]
    have hfe : (e :: rest).filter (fun x => (processRow (flatten x)).isSome) =
        (e :: rest).filter (fun x => retainedEntry x) := by
      apply List.filter_congr
      intro x _
      rw [processRow_isSome]
      rfl
    rw [hfe]
    have := length_filter_add_not (fun x => retainedEntry x) (e :: rest)
    omega

/-- Sample entry with a parseable timestamp (midnight of epoch day 0). -/
def entGood : Entry :=
  ⟨Val.vstr ("A1"), Val.vstr ("Pump"), Val.vtime 0, [(("flow"), Val.vnum 5)]⟩

/-- Sample entry whose timestamp string does not parse. -/
def entBad : Entry :=
  ⟨Val.vstr ("A2"), Val.vstr ("Pump"), Val.vstr ("not-a-date"), []⟩

theorem C2_normalized_retention_witness :
    ([entGood, entBad] : List Entry) ≠ [] ∧
    ((∀ r ∈ (load_and_process_data [entGood, entBad]).rows, ∃ t : Int,
        lookupVal r tsCol = some (Val.vtime t)) ∧
     (load_and_process_data [entGood, entBad]).rows =
       [entGood, entBad].filterMap (fun e => processRow (flatten e)) ∧
     (load_and_process_data [entGood, entBad]).rows.length =
       ([entGood, entBad] : List Entry).length -
         ([entGood, entBad].filter (fun e => !(retainedEntry e))).length) :=
  ⟨List.cons_ne_nil _ _, C2_normalized_retention [entGood, entBad] (List.cons_ne_nil _ _)⟩

/-- Python last-assignment-wins view of the `parameters` object: the value of
the final binding of `k`, `none` when `k` is not a parameter key. -/
def lastLookup (ps : List (String × Val)) (k : String) : Option Val :=
  ps.foldl (fun acc q => if q.1 == k then some q.2 else acc) none

theorem foldl_dictSet_lookup (ps : List (String × Val)) (d : Rec) (k : String) :
    lookupVal (ps.foldl (fun d2 p => dictSet d2 p.1 p.2) d) k =
      ps.foldl (fun acc q => if q.1 == k then some q.2 else acc) (lookupVal d k) := by
  induction ps generalizing d with
  | nil => rfl
  | cons p t ih =>
      simp only [List.foldl_cons]
      rw [ih]
      congr 1
      rw [dictSet_lookup]
      by_cases hp : p.1 = k
      · simp [hp]
      · have : ¬ k = p.1 := fun hk => hp hk.symm
        simp [hp, this]

theorem lastStep_foldl (ps : List (String × Val)) (k : String) (init : Option Val) :
    ps.foldl (fun acc q => if q.1 == k then some q.2 else acc) init =
      match lastLookup ps k with
      | some v => some v
      | none => init := by
  induction ps generalizing init with
  | nil => rfl
  | cons p t ih =>
      simp only [List.foldl_cons, lastLookup] at ih ⊢
      by_cases hp : p.1 = k
      · simp only [hp, beq_self_eq_true, if_true]
        rw [ih (some p.2)]
        generalize List.foldl (fun acc q => if q.1 == k then some q.2 else acc) none t = X
        cases X <;> rfl
      · have hb : (p.1 == k) = false := beq_false_of_ne hp
        simp only [hb, Bool.false_eq_true, if_false]
        rw [ih]

/-- C10.  When the `parameters` object carries a key named `pld`,
`asset_type` or `timestamp`, flattening does not fail and the parameters
value overwrites the top-level reserved field in the flat record; in
particular a parameters-supplied timestamp is the value whose parse decides
retention. -/
theorem C10_parameters_precedence (e : Entry) (k : String) (v : Val)
    (_hres : k = pldCol ∨ k = assetCol ∨ k = tsCol)
    (hlast : lastLookup e.parameters k = some v) :
    lookupVal (flatten e) k = some v ∧
    (k = tsCol → retainedEntry e = (parseTs v).isSome) := by
  have hflat : lookupVal (flatten e) k = some v := by
    simp only [flatten]
    rw [foldl_dictSet_lookup]
    rw [lastStep_foldl]
    rw [show lastLookup e.parameters k = some v from hlast]
  refine ⟨hflat, ?_⟩
  intro hk
  subst hk
  simp [retainedEntry, hflat]

/-- Sample entry whose `parameters` object overrides the reserved timestamp
field with an unparseable string. -/
def entOverride : Entry :=
  ⟨Val.vstr ("A3"), Val.vstr ("Pump"), Val.vtime 7, [((tsCol), Val.vstr ("oops"))]⟩

theorem C10_parameters_precedence_witness :
    (tsCol = pldCol ∨ tsCol = assetCol ∨ tsCol = tsCol) ∧
    lastLookup entOverride.parameters tsCol = some (Val.vstr ("oops")) ∧
    (lookupVal (flatten entOverride) tsCol = some (Val.vstr ("oops")) ∧
     (tsCol = tsCol →
        retainedEntry entOverride = (parseTs (Val.vstr ("oops"))).isSome)) :=
  ⟨Or.inr (Or.inr rfl), by decide,
   C10_parameters_precedence entOverride tsCol (Val.vstr ("oops"))
     (Or.inr (Or.inr rfl)) (by decide)⟩

/-- A sample chart configuration present before a re-upload. -/
def cfg0 : Rec := [(("type"), Val.vstr ("Line Chart"))]

/-- C3 counterexample: an upload that produces an empty dataset (here an
empty entry list, and also a list whose sole timestamp fails to parse) does
NOT clear the chart list — the handler resets charts only when the new
dataset is non-empty, so the pre-existing chart survives. -/
theorem C3_counterexample :
    (uploadStep ⟨emptyDF, [cfg0]⟩ (Upload.ok [])).charts = [cfg0] ∧
    (uploadStep ⟨emptyDF, [cfg0]⟩ (Upload.ok [entBad])).charts = [cfg0] ∧
    (uploadStep ⟨emptyDF, [cfg0]⟩ (Upload.ok [entBad])).data.rows = [] := by
  decide

/-- C3 amended: the handler always replaces the session dataset, and clears
the chart list exactly when the new dataset is non-empty; an upload
producing an empty dataset (empty input, schema failure, ingest failure, or
all timestamps unparseable) leaves the chart list unchanged. -/
theorem C3_amended_conditional_clear (s : Session) (u : Upload) :
    (uploadStep s u).data = load_upload u ∧
    (uploadStep s u).charts =
      (if (load_upload u).rows.isEmpty then s.charts else []) := by
  simp only [uploadStep]
  by_cases h : (load_upload u).rows.isEmpty <;> simp [h]

/-- Dataset loaded before the failed attempt of the C4 counterexample. -/
def dfPrior : DF := load_and_process_data [entGood]

/-- C4 counterexample: with a non-empty dataset loaded, a failed upload
attempt (malformed JSON) does not leave the dataset unchanged — the handler
overwrites it with the empty frame returned by the error path. -/
theorem C4_counterexample :
    dfPrior.rows ≠ [] ∧
    (uploadStep ⟨dfPrior, []⟩ Upload.malformed).data ≠ dfPrior := by
  decide

/-- C4 amended: a failed upload attempt replaces the session dataset with
the empty frame returned by the error path — both for `IngestError`
(malformed JSON / I/O failure) and for the no-timestamp-column schema
failure — while the chart list is left unchanged. -/
theorem C4_amended_failed_upload (s : Session) :
    uploadStep s Upload.malformed = ⟨emptyDF, s.charts⟩ ∧
    uploadStep s (Upload.ok []) = ⟨emptyDF, s.charts⟩ := by
  constructor <;> rfl

/-- Row timestamped 23:59:59.999999 UTC of epoch day 0. -/
def rowEndOfDay : Rec :=
  [((pldCol), Val.vstr ("A1")), ((assetCol), Val.vstr ("Pump")),
   ((tsCol), Val.vtime (dayUsec - 1)), (("flow"), Val.vnum 5)]

/-- Row timestamped at midnight starting epoch day 1. -/
def rowNextMidnight : Rec :=
  [((pldCol), Val.vstr ("A2")), ((assetCol), Val.vstr ("Pump")),
   ((tsCol), Val.vtime dayUsec), (("flow"), Val.vnum 6)]

/-- Row timestamped 23:59:59.000000 UTC of epoch day 0 — the exact upper
bound the dashboard computes. -/
def rowLastSecond : Rec :=
  [((pldCol), Val.vstr ("A3")), ((assetCol), Val.vstr ("Pump")),
   ((tsCol), Val.vtime (dayUsec - 1000000)), (("flow"), Val.vnum 7)]

/-- Frame holding the three boundary rows. -/
def dfC1 : DF :=
  ⟨[pldCol, assetCol, tsCol, ("flow")], [("flow")],
   [rowEndOfDay, rowNextMidnight, rowLastSecond]⟩

/-- C1 evaluation at the failing input: with fromDate = toDate = epoch day 0
the per-chart filter drops the record timestamped 23:59:59.999999 of that
day (the claim and the code comment require it to be included), because the
computed upper bound is toDate + 1 day − 1 second = 23:59:59.000000; the
record exactly at that bound is kept and the next-midnight record is
excluded as claimed. -/
theorem C1_filter_eval :
    (chart_df dfC1 ("Pump") 0 0).rows = [rowLastSecond] ∧
    rowEndOfDay ∈ dfC1.rows ∧
    tsOf rowEndOfDay = some (dayUsec - 1) ∧
    toDatetime 0 = dayUsec - 1000000 := by
  decide

/-!  Stable timestamp sort: permutation, sortedness, stability and its
commutation with filtering. -/

/-- Ordering of rows by timestamp key. -/
def tsLE (a b : Rec) : Prop := tsKey a ≤ tsKey b

theorem insertRow_perm (a : Rec) (l : List Rec) :
    List.Perm (insertRow a l) (a :: l) := by
  induction l with
  | nil => rfl
  | cons b t ih =>
      simp only [insertRow]
      by_cases h : tsKey a ≤ tsKey b
      · rw [if_pos h]
      · rw [if_neg h]
        exact (ih.cons b).trans (List.Perm.swap a b t)

theorem sortByTs_perm (l : List Rec) : List.Perm (sortByTs l) l := by
  induction l with
  | nil => rfl
  | cons a t ih => exact (insertRow_perm a (sortByTs t)).trans (ih.cons a)

theorem mem_insertRow {x a : Rec} {l : List Rec} :
    x ∈ insertRow a l ↔ x = a ∨ x ∈ l := by
  rw [(insertRow_perm a l).mem_iff]
  simp

theorem insertRow_pairwise (a : Rec) (l : List Rec) (h : l.Pairwise tsLE) :
    (insertRow a l).Pairwise tsLE := by
  induction l with
  | nil => simp [insertRow, List.pairwise_cons, tsLE]
  | cons b t ih =>
      rw [List.pairwise_cons] at h
      obtain ⟨h1, h2⟩ := h
      simp only [insertRow]
      by_cases hle : tsKey a ≤ tsKey b
      · rw [if_pos hle, List.pairwise_cons]
        refine ⟨?_, List.pairwise_cons.mpr ⟨h1, h2⟩⟩
        intro x hx
        rcases List.mem_cons.mp hx with rfl | hx
        · exact hle
        · exact le_trans hle (h1 x hx)
      · rw [if_neg hle, List.pairwise_cons]
        refine ⟨?_, ih h2⟩
        intro x hx
        rcases mem_insertRow.mp hx with rfl | hx
        · exact le_of_not_le hle
        · exact h1 x hx

theorem sortByTs_pairwise (l : List Rec) : (sortByTs l).Pairwise tsLE := by
  induction l with
  | nil => exact List.Pairwise.nil
  | cons a t ih => exact insertRow_pairwise a (sortByTs t) ih

/-- Decidability of the row ordering, for concrete evaluation. -/
instance : DecidableRel tsLE := fun a b =>
  inferInstanceAs (Decidable (tsKey a ≤ tsKey b))

/-- Two timestamp-sorted permutations of the same rows are equal when equal
timestamp keys only occur on equal rows: on duplicate-free frames every
admissible outcome of the unstable sort is the same list. -/
theorem sorted_perm_eq_of_injKeys (l1 : List Rec) : ∀ l2 : List Rec,
    List.Perm l1 l2 → l1.Pairwise tsLE → l2.Pairwise tsLE →
    (∀ x ∈ l1, ∀ y ∈ l1, tsKey x = tsKey y → x = y) → l1 = l2 := by
  induction l1 with
  | nil =>
      intro l2 hp _ _ _
      exact (hp.symm.eq_nil).symm
  | cons a t ih =>
      intro l2 hp hs1 hs2 hinj
      cases l2 with
      | nil => exact absurd hp.eq_nil (List.cons_ne_nil a t)
      | cons b t2 =>
          have hab : a = b := by
            have ha2 : a ∈ b :: t2 := hp.mem_iff.mp (List.mem_cons_self a t)
            have hb1 : b ∈ a :: t := hp.mem_iff.mpr (List.mem_cons_self b t2)
            rcases List.mem_cons.mp ha2 with h | h
            · exact h
            · rcases List.mem_cons.mp hb1 with h2 | h2
              · exact h2.symm
              · have h3 : tsKey b ≤ tsKey a := (List.pairwise_cons.mp hs2).1 a h
                have h4 : tsKey a ≤ tsKey b := (List.pairwise_cons.mp hs1).1 b h2
                exact hinj a (List.mem_cons_self a t) b
                  (List.mem_cons_of_mem a h2) (le_antisymm h4 h3)
          subst hab
          have hpt : List.Perm t t2 := hp.cons_inv
          have hrec := ih t2 hpt (List.pairwise_cons.mp hs1).2
            (List.pairwise_cons.mp hs2).2
            (fun x hx y hy hxy => hinj x (List.mem_cons_of_mem a hx)
              y (List.mem_cons_of_mem a hy) hxy)
          rw [hrec]

/-- Whatever tie order the unstable sort picked, its restriction to rows
selected by `p` equals the canonical sort of that selection, provided the
selected rows have duplicate-free timestamp keys. -/
theorem sorted_filter_eq_sortByTs (rows sorted : List Rec) (p : Rec → Bool)
    (hperm : List.Perm sorted rows) (hsort : sorted.Pairwise tsLE)
    (hinj : ∀ x ∈ rows, ∀ y ∈ rows, p x = true → p y = true →
        tsKey x = tsKey y → x = y) :
    sorted.filter p = sortByTs (rows.filter p) := by
  apply sorted_perm_eq_of_injKeys
  · exact (hperm.filter p).trans (sortByTs_perm (rows.filter p)).symm
  · exact hsort.sublist (List.filter_sublist sorted)
  · exact sortByTs_pairwise _
  · intro x hx y hy hxy
    obtain ⟨hx1, hx2⟩ := List.mem_filter.mp hx
    obtain ⟨hy1, hy2⟩ := List.mem_filter.mp hy
    exact hinj x (hperm.mem_iff.mp hx1) y (hperm.mem_iff.mp hy1) hx2 hy2 hxy

/-- Permutations have the same emptiness. -/
theorem isEmpty_of_perm (l1 l2 : List Rec) (hp : List.Perm l1 l2) :
    l1.isEmpty = l2.isEmpty := by
  cases l2 with
  | nil => rw [hp.eq_nil]
  | cons b t =>
      cases l1 with
      | nil =>
          have h2 := hp.symm.eq_nil
          exact absurd h2 (List.cons_ne_nil b t)
      | cons a t1 => rfl

theorem map_fst_pair {α β : Type} (g : α → β) (l : List α) :
    (l.map (fun k => (k, g k))).map Prod.fst = l := by
  induction l with
  | nil => rfl
  | cons a t ih => simp only [List.map_cons, ih]

theorem pldKeys_perm (l1 l2 : List Rec) (hp : List.Perm l1 l2) :
    pldKeys l1 = pldKeys l2 := by
  have hf : List.Perm (l1.filterMap pldStr) (l2.filterMap pldStr) :=
    hp.filterMap pldStr
  have hd := hf.dedup
  unfold pldKeys sortStr
  exact List.eq_of_perm_of_sorted
    ((List.perm_insertionSort _ _).trans
      (hd.trans (List.perm_insertionSort _ _).symm))
    (List.sorted_insertionSort _ _) (List.sorted_insertionSort _ _)

/-- Literal reading of the C6 claim, factored over the same sorted frame:
per pld take the chronologically last ROW and reduce those rows' parameter
values — even when the last row's value is missing. -/
def big_number_last_row (cols : List String) (sorted : List Rec)
    (param : String) (agg : Agg) : BigNum :=
  if !sorted.isEmpty && cols.contains param then
    aggReduce agg ((pldKeys sorted).map (fun k =>
      ((sorted.filter (fun r => pldStr r == some k)).getLast?).bind
        (fun r => numCell r param)))
  else BigNum.na

/-- Canonical per-pld formulation of what the code computes: within each
pld's rows, sorted by the canonical timestamp sort, the last NON-NULL
parameter value.  On frames whose equal timestamps only occur on equal rows
this matches the code's result for every admissible sort order
(`C6_amended_last_nonnull`). -/
def big_number_by_pld (df : DF) (param : String) (agg : Agg) : BigNum :=
  if !df.rows.isEmpty && df.cols.contains param then
    aggReduce agg ((pldKeys df.rows).map (fun k =>
      lastSome ((sortByTs (df.rows.filter (fun r => pldStr r == some k))).map
        (fun r => numCell r param))))
  else BigNum.na

/-- Row of pld A with flow 5 at day 0. -/
def rA1 : Rec :=
  [((pldCol), Val.vstr ("A")), ((assetCol), Val.vstr ("P")),
   ((tsCol), Val.vtime 0), (("flow"), Val.vnum 5)]

/-- Later row of pld A with a missing flow cell (NaN in the frame). -/
def rA2 : Rec :=
  [((pldCol), Val.vstr ("A")), ((assetCol), Val.vstr ("P")),
   ((tsCol), Val.vtime dayUsec)]

/-- Frame for the C6 counterexample. -/
def dfC6 : DF :=
  ⟨[pldCol, assetCol, tsCol, ("flow")], [("flow")], [rA1, rA2]⟩

/-- C6 counterexample.  The two rows carry strictly increasing timestamps,
so `[rA1, rA2]` is (up to the forced order) the frame `sort_values` returns
regardless of its tie behaviour.  The chronologically last row of pld A has
a missing parameter value, yet the code reports 5 — `GroupBy.last` takes
the last NON-NULL value per column, not the value of the last row, so the
last-row reading of the claim disagrees with the code on this input. -/
theorem C6_counterexample :
    List.Perm [rA1, rA2] dfC6.rows ∧
    List.Pairwise tsLE [rA1, rA2] ∧
    tsKey rA1 < tsKey rA2 ∧
    render_big_number dfC6.cols [rA1, rA2] ("flow") Agg.sum = BigNum.val 5 ∧
    big_number_last_row dfC6.cols [rA1, rA2] ("flow") Agg.sum = BigNum.val 0 ∧
    big_number_last_row dfC6.cols [rA1, rA2] ("flow") Agg.sum ≠
      render_big_number dfC6.cols [rA1, rA2] ("flow") Agg.sum := by
  have h1 : render_big_number dfC6.cols [rA1, rA2] ("flow") Agg.sum =
      BigNum.val 5 := by
    simp +decide [render_big_number, dfC6, rA1, rA2, pldKeys, sortStr, pldStr,
      lastSome, aggReduce, numCell, lookupVal_cons, lookupVal_nil, tsKey, tsOf,
      List.insertionSort, List.orderedInsert, tsCol, pldCol, assetCol, dayUsec,
      List.dedup_nil, List.dedup_cons_of_mem, List.dedup_cons_of_not_mem]
  have h2 : big_number_last_row dfC6.cols [rA1, rA2] ("flow") Agg.sum =
      BigNum.val 0 := by
    simp +decide [big_number_last_row, dfC6, rA1, rA2, pldKeys, sortStr, pldStr,
      lastSome, aggReduce, numCell, lookupVal_cons, lookupVal_nil, tsKey, tsOf,
      List.insertionSort, List.orderedInsert, tsCol, pldCol, assetCol, dayUsec,
      List.dedup_nil, List.dedup_cons_of_mem, List.dedup_cons_of_not_mem]
  refine ⟨by decide, by decide, by decide, h1, h2, ?_⟩
  rw [h1, h2]
  norm_num

/-- C6 amended: whatever tie order the unstable `sort_values` produces —
the theorem quantifies over every timestamp-sorted permutation of the
slice — BigNumber reduces, per pld, the last NON-NULL parameter value in
timestamp order (missing values skipped, not the literal last row's value),
provided equal timestamps only occur on identical rows, so that the result
does not depend on the sort's tie choices; an empty slice or an absent
parameter column yields the explicit N/A state, never a computed zero. -/
theorem C6_amended_last_nonnull (df : DF) (param : String) (agg : Agg)
    (sorted : List Rec) (hperm : List.Perm sorted df.rows)
    (hsort : sorted.Pairwise tsLE)
    (hinj : ∀ x ∈ df.rows, ∀ y ∈ df.rows, pldStr x = pldStr y →
        tsKey x = tsKey y → x = y) :
    render_big_number df.cols sorted param agg =
      big_number_by_pld df param agg ∧
    (df.rows = [] →
        render_big_number df.cols sorted param agg = BigNum.na) ∧
    (df.cols.contains param = false →
        render_big_number df.cols sorted param agg = BigNum.na) := by
  have hemp : sorted.isEmpty = df.rows.isEmpty := isEmpty_of_perm _ _ hperm
  refine ⟨?_, ?_, ?_⟩
  · unfold render_big_number big_number_by_pld
    rw [hemp]
    by_cases hc : (!df.rows.isEmpty && df.cols.contains param) = true
    · rw [if_pos hc, if_pos hc]
      congr 1
      rw [pldKeys_perm sorted df.rows hperm]
      apply List.map_congr_left
      intro k _
      have hfilter : sorted.filter (fun r => pldStr r == some k) =
          sortByTs (df.rows.filter (fun r => pldStr r == some k)) := by
        apply sorted_filter_eq_sortByTs df.rows sorted _ hperm hsort
        intro x hx y hy hpx hpy hxy
        apply hinj x hx y hy ?_ hxy
        have hpx2 : pldStr x = some k := by simpa using hpx
        have hpy2 : pldStr y = some k := by simpa using hpy
        rw [hpx2, hpy2]
      rw [hfilter]
    · rw [if_neg hc, if_neg hc]
  · intro h
    have hs : sorted = [] := by
      rw [h] at hperm
      exact hperm.eq_nil
    simp [render_big_number, hs]
  · intro h
    have h2 : param ∉ df.cols := by
      intro hm
      have hm2 : df.cols.contains param = true := by simpa using hm
      rw [hm2] at h
      cases h
    simp [render_big_number, h2]

/-- Witness row of pld A, flow 1 at instant 0. -/
def rBig1 : Rec :=
  [((pldCol), Val.vstr ("A")), ((assetCol), Val.vstr ("P")),
   ((tsCol), Val.vtime 0), (("flow"), Val.vnum 1)]

/-- Witness row of pld A, flow 5 at instant 1000 (the final A reading). -/
def rBig2 : Rec :=
  [((pldCol), Val.vstr ("A")), ((assetCol), Val.vstr ("P")),
   ((tsCol), Val.vtime 1000), (("flow"), Val.vnum 5)]

/-- Witness row of pld B, flow 7 at instant 0 (the final B reading). -/
def rBig3 : Rec :=
  [((pldCol), Val.vstr ("B")), ((assetCol), Val.vstr ("P")),
   ((tsCol), Val.vtime 0), (("flow"), Val.vnum 7)]

/-- Frame with two plds whose final readings are 5 and 7. -/
def dfBig : DF :=
  ⟨[pldCol, assetCol, tsCol, ("flow")], [("flow")], [rBig1, rBig2, rBig3]⟩

theorem C6_amended_last_nonnull_witness :
    List.Perm [rBig3, rBig1, rBig2] dfBig.rows ∧
    List.Pairwise tsLE [rBig3, rBig1, rBig2] ∧
    (∀ x ∈ dfBig.rows, ∀ y ∈ dfBig.rows, pldStr x = pldStr y →
        tsKey x = tsKey y → x = y) ∧
    render_big_number dfBig.cols [rBig3, rBig1, rBig2] ("flow") Agg.sum =
      BigNum.val 12 ∧
    (render_big_number dfBig.cols [rBig3, rBig1, rBig2] ("flow") Agg.sum =
        big_number_by_pld dfBig ("flow") Agg.sum ∧
     (dfBig.rows = [] →
        render_big_number dfBig.cols [rBig3, rBig1, rBig2] ("flow") Agg.sum =
          BigNum.na) ∧
     (dfBig.cols.contains ("flow") = false →
        render_big_number dfBig.cols [rBig3, rBig1, rBig2] ("flow") Agg.sum =
          BigNum.na)) := by
  have hperm : List.Perm [rBig3, rBig1, rBig2] dfBig.rows := by decide
  have hsort : List.Pairwise tsLE [rBig3, rBig1, rBig2] := by decide
  have hinj : ∀ x ∈ dfBig.rows, ∀ y ∈ dfBig.rows, pldStr x = pldStr y →
      tsKey x = tsKey y → x = y := by decide
  refine ⟨hperm, hsort, hinj, ?_,
    C6_amended_last_nonnull dfBig ("flow") Agg.sum [rBig3, rBig1, rBig2]
      hperm hsort hinj⟩
  have h1 : render_big_number dfBig.cols [rBig3, rBig1, rBig2] ("flow")
      Agg.sum = BigNum.val (5 + 7) := by
    simp +decide [render_big_number, dfBig, rBig1, rBig2, rBig3, pldKeys,
      sortStr, pldStr, lastSome, aggReduce, numCell, lookupVal_cons,
      lookupVal_nil, tsKey, tsOf, List.insertionSort, List.orderedInsert, tsCol,
      pldCol, assetCol, dayUsec, List.dedup_nil, List.dedup_cons_of_mem,
      List.dedup_cons_of_not_mem]
  rw [h1]
  norm_num

theorem mem_dayRange (a b d : Int) : d ∈ dayRange a b ↔ a ≤ d ∧ d ≤ b := by
  simp only [dayRange, List.mem_map, List.mem_range]
  constructor
  · rintro ⟨i, hi, rfl⟩
    omega
  · rintro ⟨h1, h2⟩
    exact ⟨(d - a).toNat, by omega, by omega⟩

theorem dayRange_pairwise (a b : Int) : (dayRange a b).Pairwise (· < ·) := by
  unfold dayRange
  refine List.Pairwise.map _ ?_ (List.pairwise_lt_range _)
  intro i j hij
  omega

/-- Row of pld A with flow 10 on epoch day 0. -/
def rG1 : Rec :=
  [((pldCol), Val.vstr ("A")), ((assetCol), Val.vstr ("P")),
   ((tsCol), Val.vtime 0), (("flow"), Val.vnum 10)]

/-- Row of pld A with flow 2 on epoch day 2 — day 1 has no rows. -/
def rG2 : Rec :=
  [((pldCol), Val.vstr ("A")), ((assetCol), Val.vstr ("P")),
   ((tsCol), Val.vtime (2 * dayUsec)), (("flow"), Val.vnum 2)]

/-- C5 counterexample: `pd.Grouper(freq := D)` resamples, so day 1 — which
has zero contributing rows — is emitted as a bucket with sum 0 rather than
omitted. -/
theorem C5_counterexample :
    render_line_grouped [rG1, rG2] ("flow") Agg.sum =
      [(0, some 10), (1, some 0), (2, some 2)] ∧
    (1, some (0 : Rat)) ∈ render_line_grouped [rG1, rG2] ("flow") Agg.sum ∧
    [rG1, rG2].filter (fun r => dayOf (tsKey r) == 1) = [] := by
  have heval : render_line_grouped [rG1, rG2] ("flow") Agg.sum =
      [(0, some 10), (1, some 0), (2, some 2)] := by
    have hdr : dayRange 0 2 = [0, 1, 2] := by decide
    simp +decide [render_line_grouped, rG1, rG2, minList, maxList, dayOf,
      aggDay, numCell, tsKey, tsOf, lookupVal_cons, lookupVal_nil, tsCol, pldCol,
      assetCol, dayUsec, hdr]
  refine ⟨heval, ?_, by decide⟩
  rw [heval]
  simp

/-- C5 amended: the grouped series emits one bucket for EVERY UTC calendar
day between the first and last observed day inclusive, in ascending order;
a day with zero contributing rows is emitted with value 0 under sum and a
null value under mean, and every emitted value is the aggregate of its
day's rows. -/
theorem C5_amended_full_span (rows : List Rec) (param : String) (agg : Agg)
    (a b : Int)
    (hmin : minList (rows.map (fun r => dayOf (tsKey r))) = some a)
    (hmax : maxList (rows.map (fun r => dayOf (tsKey r))) = some b) :
    (render_line_grouped rows param agg).map Prod.fst = dayRange a b ∧
    (∀ d : Int,
        d ∈ (render_line_grouped rows param agg).map Prod.fst ↔ a ≤ d ∧ d ≤ b) ∧
    ((render_line_grouped rows param agg).map Prod.fst).Pairwise (· < ·) ∧
    (∀ q ∈ render_line_grouped rows param agg,
        q.2 = aggDay rows param agg q.1) ∧
    (∀ d : Int, a ≤ d → d ≤ b →
        rows.filter (fun r => dayOf (tsKey r) == d) = [] →
        (d, match agg with
            | Agg.sum => some (0 : Rat)
            | Agg.mean => none) ∈ render_line_grouped rows param agg) := by
  have hren : render_line_grouped rows param agg =
      (dayRange a b).map (fun d => (d, aggDay rows param agg d)) := by
    simp only [render_line_grouped, hmin, hmax]
  have hfst : (render_line_grouped rows param agg).map Prod.fst = dayRange a b := by
    rw [hren]
    exact map_fst_pair _ _
  refine ⟨hfst, ?_, ?_, ?_, ?_⟩
  · intro d
    rw [hfst]
    exact mem_dayRange a b d
  · rw [hfst]
    exact dayRange_pairwise a b
  · intro q hq
    rw [hren] at hq
    obtain ⟨d, _, rfl⟩ := List.mem_map.mp hq
    rfl
  · intro d h1 h2 hempty
    rw [hren]
    apply List.mem_map.mpr
    refine ⟨d, (mem_dayRange a b d).mpr ⟨h1, h2⟩, ?_⟩
    have hxs : (rows.filter (fun r => dayOf (tsKey r) == d)).filterMap
        (fun r => numCell r param) = [] := by
      rw [hempty]
      rfl
    cases agg <;> simp [aggDay, hxs]

/-- Witness rows: three observations of one pld on a single day, with
values 10, 20 and 30. -/
def rM1 : Rec :=
  [((pldCol), Val.vstr ("A")), ((assetCol), Val.vstr ("P")),
   ((tsCol), Val.vtime 0), (("flow"), Val.vnum 10)]

/-- Second single-day witness row, value 20. -/
def rM2 : Rec :=
  [((pldCol), Val.vstr ("A")), ((assetCol), Val.vstr ("P")),
   ((tsCol), Val.vtime 1000), (("flow"), Val.vnum 20)]

/-- Third single-day witness row, value 30. -/
def rM3 : Rec :=
  [((pldCol), Val.vstr ("A")), ((assetCol), Val.vstr ("P")),
   ((tsCol), Val.vtime 2000), (("flow"), Val.vnum 30)]

theorem C5_amended_full_span_witness :
    minList ([rM1, rM2, rM3].map (fun r => dayOf (tsKey r))) = some 0 ∧
    maxList ([rM1, rM2, rM3].map (fun r => dayOf (tsKey r))) = some 0 ∧
    render_line_grouped [rM1, rM2, rM3] ("flow") Agg.sum = [(0, some 60)] ∧
    render_line_grouped [rM1, rM2, rM3] ("flow") Agg.mean = [(0, some 20)] ∧
    ((render_line_grouped [rM1, rM2, rM3] ("flow") Agg.sum).map Prod.fst =
        dayRange 0 0 ∧
     (∀ d : Int,
        d ∈ (render_line_grouped [rM1, rM2, rM3] ("flow") Agg.sum).map Prod.fst ↔
          0 ≤ d ∧ d ≤ 0) ∧
     ((render_line_grouped [rM1, rM2, rM3] ("flow") Agg.sum).map
        Prod.fst).Pairwise (· < ·) ∧
     (∀ q ∈ render_line_grouped [rM1, rM2, rM3] ("flow") Agg.sum,
        q.2 = aggDay [rM1, rM2, rM3] ("flow") Agg.sum q.1) ∧
     (∀ d : Int, 0 ≤ d → d ≤ 0 →
        [rM1, rM2, rM3].filter (fun r => dayOf (tsKey r) == d) = [] →
        (d, match Agg.sum with
            | Agg.sum => some (0 : Rat)
            | Agg.mean => none) ∈
          render_line_grouped [rM1, rM2, rM3] ("flow") Agg.sum)) := by
  have hdr : dayRange 0 0 = [0] := by decide
  refine ⟨by decide, by decide, ?_, ?_,
    C5_amended_full_span [rM1, rM2, rM3] ("flow") Agg.sum 0 0
      (by decide) (by decide)⟩
  · simp +decide [render_line_grouped, rM1, rM2, rM3, minList, maxList, dayOf,
      aggDay, numCell, tsKey, tsOf, lookupVal_cons, lookupVal_nil, tsCol, pldCol,
      assetCol, dayUsec, hdr]
    all_goals norm_num
  · simp +decide [render_line_grouped, rM1, rM2, rM3, minList, maxList, dayOf,
      aggDay, numCell, tsKey, tsOf, lookupVal_cons, lookupVal_nil, tsCol, pldCol,
      assetCol, dayUsec, hdr]
    all_goals norm_num

/-- C8 counterexample: the Gauge branch of the dialog performs no bounds
validation — a draft with min_val 50 and max_val 10 is appended to the
dashboard as entered; no error path exists. -/
theorem C8_counterexample :
    configure_gauge_dialog [] ("Pump") ("flow") 50 10 =
      [[((assetCol), Val.vstr ("Pump")), (("type"), Val.vstr ("Gauge")),
        (("parameter"), Val.vstr ("flow")), (("min_val"), Val.vnum 50),
        (("max_val"), Val.vnum 10)]] ∧
    (∀ cfg ∈ configure_gauge_dialog [] ("Pump") ("flow") 50 10,
        lookupVal cfg ("min_val") = some (Val.vnum 50) ∧
        lookupVal cfg ("max_val") = some (Val.vnum 10)) ∧
    ((10 : Rat) < 50) := by
  refine ⟨by decide, by decide, by norm_num⟩

/-- C8 amended: the dialog validates nothing about the Gauge bounds — for
every draft, including one with min_val > max_val, the configuration is
appended exactly as entered (prior charts preserved, bounds never swapped,
chart count incremented, no ConfigError). -/
theorem C8_amended_no_validation (charts : List Rec) (asset param : String)
    (minv maxv : Rat) (_h : maxv < minv) :
    configure_gauge_dialog charts asset param minv maxv = charts ++
      [[((assetCol), Val.vstr asset), (("type"), Val.vstr ("Gauge")),
        (("parameter"), Val.vstr param), (("min_val"), Val.vnum minv),
        (("max_val"), Val.vnum maxv)]] ∧
    (∀ cfg, (configure_gauge_dialog charts asset param minv maxv).getLast? =
        some cfg →
        lookupVal cfg ("min_val") = some (Val.vnum minv) ∧
        lookupVal cfg ("max_val") = some (Val.vnum maxv)) ∧
    (configure_gauge_dialog charts asset param minv maxv).length =
      charts.length + 1 := by
  refine ⟨rfl, ?_, by simp [configure_gauge_dialog]⟩
  intro cfg hc
  have hcat : configure_gauge_dialog charts asset param minv maxv = charts ++
      [[((assetCol), Val.vstr asset), (("type"), Val.vstr ("Gauge")),
        (("parameter"), Val.vstr param), (("min_val"), Val.vnum minv),
        (("max_val"), Val.vnum maxv)]] := rfl
  rw [hcat, List.getLast?_concat] at hc
  obtain rfl : _ = cfg := Option.some.inj hc
  constructor <;> simp +decide [lookupVal_cons, assetCol]

theorem C8_amended_no_validation_witness :
    ((10 : Rat) < 50) ∧
    (configure_gauge_dialog [] ("Pump") ("flow") 50 10 = [] ++
      [[((assetCol), Val.vstr ("Pump")), (("type"), Val.vstr ("Gauge")),
        (("parameter"), Val.vstr ("flow")), (("min_val"), Val.vnum 50),
        (("max_val"), Val.vnum 10)]] ∧
     (∀ cfg, (configure_gauge_dialog [] ("Pump") ("flow") 50 10).getLast? =
        some cfg →
        lookupVal cfg ("min_val") = some (Val.vnum 50) ∧
        lookupVal cfg ("max_val") = some (Val.vnum 10)) ∧
     (configure_gauge_dialog [] ("Pump") ("flow") 50 10).length =
       ([] : List Rec).length + 1) :=
  ⟨by norm_num,
   C8_amended_no_validation [] ("Pump") ("flow") 50 10 (by norm_num)⟩

/-- Entry of asset type Pump carrying only the parameter `flow`. -/
def entPump : Entry :=
  ⟨Val.vstr ("p1"), Val.vstr ("Pump"), Val.vtime 0, [(("flow"), Val.vnum 5)]⟩

/-- Entry of asset type Valve carrying only the parameter `status`. -/
def entValve : Entry :=
  ⟨Val.vstr ("v1"), Val.vstr ("Valve"), Val.vtime 0, [(("status"), Val.vnum 1)]⟩

/-- Mixed-type frame for the C9 counterexample. -/
def dfMix : DF := load_and_process_data [entPump, entValve]

/-- C9 counterexample: slicing rows does not drop columns or re-infer
dtypes, so the dialog offers the column `status` for Pump charts — in both
the all-columns and the numeric domain — although no Pump record carries
it. -/
theorem C9_counterexample :
    ("status") ∈ modal_all_cols dfMix ("Pump") ∧
    ("status") ∈ modal_numeric_cols dfMix ("Pump") ∧
    (∀ r ∈ (select_asset_rows dfMix ("Pump")).rows,
        lookupVal r ("status") = none) ∧
    (select_asset_rows dfMix ("Pump")).rows ≠ [] := by
  decide

theorem load_components_of_contains (data : List Entry)
    (h : (dfColumns (data.map flatten)).contains tsCol = true) :
    (load_and_process_data data).cols = dfColumns (data.map flatten) ∧
    (load_and_process_data data).numCols =
      ((dfColumns (data.map flatten)).filter
        (fun c => inferNumeric (data.map flatten) c)).filter
          (fun c => c != tsCol) := by
  have hm : tsCol ∈ dfColumns (data.map flatten) := by simpa using h
  constructor <;> simp [load_and_process_data, hm]

/-- C9 amended: the dialog's domains are computed from the whole frame, not
from the asset-type slice — the all-columns domain is every column of the
dataset regardless of the chosen asset type, and the numeric domain is
every non-timestamp column whose dtype over the whole dataset is numeric
(at least one numeric value, and nothing but numbers or missing/null cells
across ALL records of ALL asset types). -/
theorem C9_amended_global_domains (data : List Entry) (t : String)
    (h : data ≠ []) :
    modal_all_cols (load_and_process_data data) t =
      dfColumns (data.map flatten) ∧
    (∀ c : String,
        c ∈ modal_numeric_cols (load_and_process_data data) t ↔
          (c ∈ dfColumns (data.map flatten) ∧ c ≠ tsCol ∧
           (∃ r ∈ data.map flatten, isNumCell (lookupVal r c) = true) ∧
           (∀ r ∈ data.map flatten,
              isNumCell (lookupVal r c) = true ∨
                isNACell (lookupVal r c) = true))) := by
  obtain ⟨e, rest, rfl⟩ := List.exists_cons_of_ne_nil h
  have hcomp := load_components_of_contains (e :: rest)
    (dfColumns_contains_ts e rest)
  constructor
  · show (select_asset_rows (load_and_process_data (e :: rest)) t).cols = _
    show (load_and_process_data (e :: rest)).cols = _
    exact hcomp.1
  · intro c
    show c ∈ (load_and_process_data (e :: rest)).numCols ↔ _
    rw [hcomp.2]
    simp only [List.mem_filter, inferNumeric, Bool.and_eq_true, List.any_eq_true,
      List.all_eq_true, bne_iff_ne, ne_eq, Bool.or_eq_true]
    constructor
    · rintro ⟨⟨hmem, hany, hall⟩, hne⟩
      exact ⟨hmem, hne, hany, hall⟩
    · rintro ⟨hmem, hne, hany, hall⟩
      exact ⟨⟨hmem, hany, hall⟩, hne⟩

theorem C9_amended_global_domains_witness :
    ([entPump, entValve] : List Entry) ≠ [] ∧
    (modal_all_cols (load_and_process_data [entPump, entValve]) ("Pump") =
      dfColumns ([entPump, entValve].map flatten) ∧
     (∀ c : String,
        c ∈ modal_numeric_cols (load_and_process_data [entPump, entValve])
            ("Pump") ↔
          (c ∈ dfColumns ([entPump, entValve].map flatten) ∧ c ≠ tsCol ∧
           (∃ r ∈ [entPump, entValve].map flatten,
              isNumCell (lookupVal r c) = true) ∧
           (∀ r ∈ [entPump, entValve].map flatten,
              isNumCell (lookupVal r c) = true ∨
                isNACell (lookupVal r c) = true)))) :=
  ⟨List.cons_ne_nil _ _,
   C9_amended_global_domains [entPump, entValve] ("Pump")
     (List.cons_ne_nil _ _)⟩
